import Mathlib

set_option maxRecDepth 100000

/-!
# NanoSutraCore agent — verification of the spec against `src/agent.py`

Shallow embedding of the core of `NanoSutraCoreAgent`:

* `evaluate_risk` — keyword scoring over the lowercased JSON serialization of
  the task (`json.dumps(task).lower()`), plus an action-count bonus, mapped to
  a tier in `{green, yellow, red}`;
* `execute_actions` — concurrent fan-out over the task's actions collecting
  one result per action (`asyncio.gather`), modelled both as the pure result
  list and, for order/concurrency claims, with an explicit completion
  schedule and a timed makespan model;
* `process_task` — the coordinator assembling the `TaskReport`.

Python strings are modelled as `List Char`; a task (a Python `dict` decoded
from JSON) is an association list of string keys to JSON values.
-/

/-- A JSON value, as decoded by the transport layer and handed to the agent.
Numbers are restricted to integers: every task in this repository carries only
strings, objects and arrays, and no claim involves fractional numbers. -/
inductive Json where
  | null : Json
  | bool (b : Bool) : Json
  | num (n : Int) : Json
  | str (s : String) : Json
  | arr (elems : List Json) : Json
  | obj (fields : List (String × Json)) : Json
deriving Repr, Inhabited, BEq

/-- A task as received by `NanoSutraCoreAgent` (`Dict[str, Any]`): an
association list modelling the Python dict (decoded dicts have distinct
keys; lookup takes the first binding, as `dict.get` would). -/
abbrev AgentTask : Type := List (String × Json)

/-- An action within a task (`Dict[str, Any]`). -/
abbrev AgentAction : Type := List (String × Json)

/-- Hexadecimal digit characters as Python's `'\\u%04x'` produces them
(lowercase). -/
def hexDigit (n : Nat) : Char :=
  if n < 10 then Char.ofNat ('0'.toNat + n) else Char.ofNat ('a'.toNat + (n - 10))

/-- A `\uXXXX` escape for a code unit `n < 0x10000`, lowercase hex, as in
Python's `json.dumps` with the default `ensure_ascii=True`. -/
def uEsc (n : Nat) : List Char :=
  ['\\', 'u', hexDigit (n / 4096 % 16), hexDigit (n / 256 % 16),
   hexDigit (n / 16 % 16), hexDigit (n % 16)]

/-- Escaping of one character of a JSON string by Python's `json.dumps`
(default `ensure_ascii=True`): the two-character escapes for `"`, `\\` and
the named control characters, `\uXXXX` (with a surrogate pair above the BMP)
for every other character outside `0x20`–`0x7e`, and the character itself
otherwise.  Hence the serialized blob is pure ASCII. -/
def escapeChar (c : Char) : List Char :=
  if c = '"' then ['\\', '"']
  else if c = '\\' then ['\\', '\\']
  else if c = '\n' then ['\\', 'n']
  else if c = '\r' then ['\\', 'r']
  else if c = '\t' then ['\\', 't']
  else if c = Char.ofNat 8 then ['\\', 'b']
  else if c = Char.ofNat 12 then ['\\', 'f']
  else if c.toNat < 0x20 ∨ 0x7e < c.toNat then
    if c.toNat ≤ 0xffff then uEsc c.toNat
    else uEsc (0xd800 + (c.toNat - 0x10000) / 1024) ++ uEsc (0xdc00 + (c.toNat - 0x10000) % 1024)
  else [c]

/-- Escaping of a whole JSON string body (Python `json.dumps` string
contents, without the surrounding quotes). -/
def escapeStr (s : List Char) : List Char := (s.map escapeChar).flatten

mutual

/-- Python's `json.dumps` with its defaults: separators `", "` and `": "`,
`ensure_ascii=True`.  This is the serialization `evaluate_risk` scans for
keywords (`task_str = json.dumps(task).lower()`). -/
def dumps : Json → List Char
  | .null => 'n' :: 'u' :: 'l' :: 'l' :: []
  | .bool true => 't' :: 'r' :: 'u' :: 'e' :: []
  | .bool false => 'f' :: 'a' :: 'l' :: 's' :: 'e' :: []
  | .num n => (toString n).data
  | .str s => '"' :: (escapeStr s.data ++ ['"'])
  | .arr l => '[' :: (dumpsArr l ++ [']'])
  | .obj kvs => '{' :: (dumpsObj kvs ++ ['}'])

/-- Serialization of the elements of a JSON array, joined by `", "`. -/
def dumpsArr : List Json → List Char
  | [] => []
  | [v] => dumps v
  | v :: w :: vs => dumps v ++ ',' :: ' ' :: dumpsArr (w :: vs)

/-- Serialization of the fields of a JSON object, `"key": value` joined by
`", "`. -/
def dumpsObj : List (String × Json) → List Char
  | [] => []
  | [(k, v)] => '"' :: (escapeStr k.data ++ '"' :: ':' :: ' ' :: dumps v)
  | (k, v) :: kv :: kvs =>
      ('"' :: (escapeStr k.data ++ '"' :: ':' :: ' ' :: dumps v)) ++
        ',' :: ' ' :: dumpsObj (kv :: kvs)

end

/-- The lowercased serialized blob `json.dumps(task).lower()` scanned by
`evaluate_risk`.  `dumps` emits only ASCII (non-ASCII input is `\uXXXX`
escaped with lowercase hex), on which `Char.toLower` agrees with Python's
`str.lower`. -/
def taskBlob (t : AgentTask) : List Char := (dumps (Json.obj t)).map Char.toLower

/-- Holds (`true`) iff `kw` occurs as a contiguous run at the start of `s`: the
prefix step of Python's substring containment. -/
def startsWithChars (kw : List Char) : List Char → Bool
  | [] => kw.isEmpty
  | c :: rest =>
    match kw with
    | [] => true
    | k :: ks => k == c && startsWithChars ks rest

/-- Python's `keyword in task_str`: substring containment. -/
def containsSub (kw : List Char) : List Char → Bool
  | [] => kw.isEmpty
  | c :: rest => startsWithChars kw (c :: rest) || containsSub kw rest

/-- The fixed high-risk keyword list of `evaluate_risk`. -/
def high_risk_keywords : List (List Char) :=
  ["delete".data, "payment".data, "charge".data, "refund".data,
   "cancel_subscription".data]

/-- The fixed medium-risk keyword list of `evaluate_risk`. -/
def medium_risk_keywords : List (List Char) :=
  ["update".data, "modify".data, "send_email".data, "post".data]

/-- The lookup `task.get('actions', [])` as used by `evaluate_risk` and `process_task`.
A present non-array value is outside the AgentTask data model (its `len()` /
iteration would fault in Python) and is modelled as the empty list; the
well-formedness predicate `ActionsWF` rules it out where a claim assumes the
data model. -/
def getActions (t : AgentTask) : List Json :=
  match List.lookup "actions" t with
  | some (.arr l) => l
  | _ => []

/-- The task's `actions` field, when present, is an array (the shape §3 of
the spec assigns to every task). -/
def ActionsWF (t : AgentTask) : Prop :=
  match List.lookup "actions" t with
  | none => True
  | some (.arr _) => True
  | some _ => False

instance (t : AgentTask) : Decidable (ActionsWF t) := by
  unfold ActionsWF
  match List.lookup "actions" t with
  | none => exact inferInstanceAs (Decidable True)
  | some (.arr _) => exact inferInstanceAs (Decidable True)
  | some (.null) => exact inferInstanceAs (Decidable False)
  | some (.bool _) => exact inferInstanceAs (Decidable False)
  | some (.num _) => exact inferInstanceAs (Decidable False)
  | some (.str _) => exact inferInstanceAs (Decidable False)
  | some (.obj _) => exact inferInstanceAs (Decidable False)

/-- The accumulated `risk_score` of `evaluate_risk`, written exactly as the
source computes it: two keyword folds (+10 per high-risk keyword present,
+3 per medium-risk keyword present) followed by the action-count bonus. -/
def riskScore (t : AgentTask) : Nat :=
  let task_str := taskBlob t
  let score1 := high_risk_keywords.foldl
    (fun sc kw => if containsSub kw task_str then sc + 10 else sc) 0
  let score2 := medium_risk_keywords.foldl
    (fun sc kw => if containsSub kw task_str then sc + 3 else sc) score1
  let num_actions := (getActions t).length
  if num_actions > 5 then score2 + 5
  else if num_actions > 3 then score2 + 2
  else score2

/-- The method `NanoSutraCoreAgent.evaluate_risk` (the pure value it returns; its only
effect, a log line, is modelled by `evaluate_riskSt`). -/
def evaluate_risk (t : AgentTask) : String :=
  let risk_score := riskScore t
  if risk_score ≥ 10 then "red"
  else if risk_score ≥ 5 then "yellow"
  else "green"

/-- Number of matching high-risk keywords (each counted once). -/
def highMatches (t : AgentTask) : Nat :=
  (high_risk_keywords.filter (fun kw => containsSub kw (taskBlob t))).length

/-- Number of matching medium-risk keywords (each counted once). -/
def mediumMatches (t : AgentTask) : Nat :=
  (medium_risk_keywords.filter (fun kw => containsSub kw (taskBlob t))).length

/-- The keyword part of the spec's score: 10 per matching high-risk keyword,
3 per matching medium-risk keyword, each at most once (spec §4.1 steps 3–4). -/
def keywordScore (t : AgentTask) : Nat := 10 * highMatches t + 3 * mediumMatches t

/-- The action-count contribution of the spec's score (spec §4.1 step 5):
n > 5 adds 5, else n > 3 adds 2, else nothing. -/
def actionBonus (n : Nat) : Nat := if n > 5 then 5 else if n > 3 then 2 else 0

/-- Spec §4.1 step 6: threshold mapping from score to tier. -/
def tierOf (score : Nat) : String :=
  if score ≥ 10 then "red" else if score ≥ 5 then "yellow" else "green"

/-- Modelled from the spec's words (§4.1, claim C1): the score as a closed
arithmetic expression — keyword contributions plus action-count bonus —
against which the source's accumulating fold is compared. -/
def spec_score (t : AgentTask) : Nat := keywordScore t + actionBonus (getActions t).length

/-- Modelled from the spec's words (§4.1, claim C1): classification as the
threshold mapping applied to `spec_score`. -/
def spec_classify (t : AgentTask) : String := tierOf (spec_score t)

/-- Comma-space separated concatenation, the joining shape shared by `dumpsArr`
and `dumpsObj`. -/
def joinSep : List (List Char) → List Char
  | [] => []
  | [p] => p
  | p :: q :: ps => p ++ ',' :: ' ' :: joinSep (q :: ps)

/-- One serialized `"key": value` field of an object. -/
def entryStr (kv : String × Json) : List Char :=
  '"' :: (escapeStr kv.1.data ++ '"' :: ':' :: ' ' :: dumps kv.2)

/-- Keywords that can occur inside a serialized field but never across the
structural punctuation of `json.dumps` output: nonempty and free of the
separator and bracketing characters.  Every keyword of `evaluate_risk`
satisfies this (they are lowercase words over letters and `_`). -/
def kwClean (kw : List Char) : Prop :=
  kw ≠ [] ∧ ',' ∉ kw ∧ ' ' ∉ kw ∧ '{' ∉ kw ∧ '}' ∉ kw ∧ '[' ∉ kw ∧
    ']' ∉ kw ∧ '"' ∉ kw ∧ ':' ∉ kw

instance (kw : List Char) : Decidable (kwClean kw) := by
  unfold kwClean
  infer_instance

-- ### Action executor and task coordinator

/-- The dict built by `execute_single_action` for one action. -/
structure ActionResult where
  action : Json
  status : String
  result : List Char
deriving Repr, BEq

/-- Python's `d.get(k, default)` on a decoded dict.  Actions in a well-formed task
are dicts; on a non-dict (where Python's attribute lookup of `.get` would
raise, outside the data model of spec §3) the default stands in. -/
def jsonGet (j : Json) (k : String) (d : Json) : Json :=
  match j with
  | .obj kvs => (List.lookup k kvs).getD d
  | _ => d

/-- The lookup `action.get('type', 'unknown')`. -/
def getType (a : Json) : Json := jsonGet a "type" (Json.str "unknown")

/-- Python `str()` of a value interpolated into an f-string.  Faithful for
the atomic values (strings, ints, booleans, `None`) that `type` fields take
in this repository; for containers (whose Python `str` is a single-quoted
repr) the JSON text stands in — no claim inspects those characters. -/
def pyStr : Json → List Char
  | .null => "None".data
  | .bool true => "True".data
  | .bool false => "False".data
  | .num n => (toString n).data
  | .str s => s.data
  | .arr l => dumps (Json.arr l)
  | .obj kvs => dumps (Json.obj kvs)

/-- The coroutine `execute_single_action`: the reference per-action unit of work — after a
simulated delay it reports success, naming the action's type. -/
def executeSingleAction (a : Json) : ActionResult :=
  { action := getType a
    status := "success"
    result := "Executed ".data ++ pyStr (getType a) ++ " action".data }

/-- The result list of `execute_actions`: `asyncio.gather` returns results
in the coroutines' argument order, one per action. -/
def execute_actions (acts : List Json) : List ActionResult :=
  acts.map executeSingleAction

/-- Result collection of `asyncio.gather` under an explicit completion order:
coroutine `i` writes its result into slot `i` when it completes, whatever
position `i` takes in the completion sequence `σ`. -/
def gatherSched (n : Nat) (f : Nat → ActionResult) (σ : List Nat) :
    List (Option ActionResult) :=
  σ.foldl (fun slots i => slots.set i (some (f i))) (List.replicate n none)

/-- The executor run under completion order `σ`: each coroutine `i` runs
`execute_single_action` on action `i`. -/
def executeSched (acts : List Json) (σ : List Nat) :
    List (Option ActionResult) :=
  gatherSched acts.length (fun i => executeSingleAction (acts.getD i (Json.obj []))) σ

/-- Modelled after `asyncio.gather` without `return_exceptions=True` over possibly-failing
coroutines: the first raised exception propagates to the awaiter and no
result list is produced; only if every coroutine returns normally is the
ordered result list returned. -/
def gatherExcept : List (Except String ActionResult) →
    Except String (List ActionResult)
  | [] => .ok []
  | .error e :: _ => .error e
  | .ok r :: rest => (gatherExcept rest).map (fun rs => r :: rs)

/-- The executor `execute_actions` generalized over the pluggable per-action execution
capability of spec §4.2; the capability may report an error, which the
`gather` call propagates. -/
def executeActionsWith (cap : Json → Except String ActionResult)
    (acts : List Json) : Except String (List ActionResult) :=
  gatherExcept (acts.map cap)

/-- The repository's reference capability: `execute_single_action`, which
never reports an error. -/
def defaultCap (a : Json) : Except String ActionResult :=
  .ok (executeSingleAction a)

/-- A capability configured so that exactly the action of type `"explode"`
reports an error. -/
def capFail (a : Json) : Except String ActionResult :=
  match getType a with
  | Json.str s => if s = "explode" then .error "boom" else .ok (executeSingleAction a)
  | _ => .ok (executeSingleAction a)

/-- A two-action batch whose second action's capability fails. -/
def demoActions : List Json :=
  [Json.obj [("type", Json.str "fine")], Json.obj [("type", Json.str "explode")]]

/-- The log lines the agent emits (`logger.info`), as structured events
carrying the interpolated values. -/
inductive LogEvent where
  | processingTask (name : Json) : LogEvent
  | evaluatingRisk (name : Option Json) : LogEvent
  | riskDetermined (level : String) : LogEvent
  | executingActions (count : Nat) : LogEvent
deriving Repr, BEq

/-- The method `evaluate_risk` with its effect: the returned tier plus the one log line
it appends.  The computation itself reads nothing but the task. -/
def evaluate_riskSt (log : List LogEvent) (t : AgentTask) :
    String × List LogEvent :=
  (evaluate_risk t, log ++ [LogEvent.evaluatingRisk (List.lookup "name" t)])

/-- The executor `execute_actions` with its log line. -/
def execute_actionsSt (log : List LogEvent) (acts : List Json) :
    List ActionResult × List LogEvent :=
  (execute_actions acts, log ++ [LogEvent.executingActions acts.length])

/-- The report dict `process_task` returns. -/
structure TaskReport where
  task_name : Json
  risk_level : String
  actions_executed : Nat
  results : List ActionResult
  status : String
deriving Repr, BEq

/-- The coordinator `NanoSutraCoreAgent.process_task` with its logging: log the task, have
`evaluate_risk` classify (second log line), log the determined level, then
execute the actions (fourth log line), and assemble the report. -/
def process_taskSt (log : List LogEvent) (t : AgentTask) :
    TaskReport × List LogEvent :=
  let task_name := (List.lookup "name" t).getD (Json.str "Unnamed Task")
  let log1 := log ++ [LogEvent.processingTask task_name]
  let (risk_level, log2) := evaluate_riskSt log1 t
  let log3 := log2 ++ [LogEvent.riskDetermined risk_level]
  let actions := getActions t
  let (results, log4) := execute_actionsSt log3 actions
  ({ task_name := task_name
     risk_level := risk_level
     actions_executed := actions.length
     results := results
     status := "completed" }, log4)

/-- The report `process_task` returns (the JSON body of the route). -/
def process_task (t : AgentTask) : TaskReport := (process_taskSt [] t).1

-- ### Timed model of the concurrent fan-out

/-- The simulated per-action delay, `asyncio.sleep(0.1)`, in milliseconds. -/
def sleepMs : Nat := 100

/-- Makespan of the fan-out/fan-in the executor performs: all coroutines are
dispatched together and `asyncio.gather` completes when the last one does,
so the batch takes the maximum of the per-coroutine delays. -/
def concurrentMakespan (delays : List Nat) : Nat := delays.foldr max 0

/-- Makespan of the sequential loop the concurrency claim contrasts with:
one delay after another. -/
def sequentialMakespan (delays : List Nat) : Nat := delays.sum

/-- The per-action delays of a batch: every action sleeps `sleepMs`. -/
def actionDelays (acts : List Json) : List Nat :=
  acts.map (fun _ => sleepMs)

-- ### Concrete tasks (the repository's fixtures and test inputs)

/-- The `'standard'` fixture of the `/api/test` route. -/
def standardTask : AgentTask :=
  [("name", Json.str "Standard Task - Normal Operations"),
   ("description", Json.str "Regular task with moderate complexity"),
   ("actions", Json.arr
     [Json.obj [("type", Json.str "fetch_data"), ("data", Json.str "records")],
      Json.obj [("type", Json.str "update"), ("data", Json.str "status_field")],
      Json.obj [("type", Json.str "notify"), ("data", Json.str "team_channel")]])]

/-- A task with four actions whose four types are all medium-risk keywords
and no high-risk keyword anywhere. -/
def fourMediumTask : AgentTask :=
  [("name", Json.str "Broadcast"),
   ("actions", Json.arr
     [Json.obj [("type", Json.str "update")],
      Json.obj [("type", Json.str "modify")],
      Json.obj [("type", Json.str "send_email")],
      Json.obj [("type", Json.str "post")]])]

/-- A task with four actions, exactly one medium-risk keyword and no
high-risk keyword. -/
def oneMediumTask : AgentTask :=
  [("name", Json.str "Batch"),
   ("actions", Json.arr
     [Json.obj [("type", Json.str "update")],
      Json.obj [("type", Json.str "fetch")],
      Json.obj [("type", Json.str "notify")],
      Json.obj [("type", Json.str "log")]])]

/-- A task containing the high-risk keyword `delete`. -/
def deleteTask : AgentTask :=
  [("name", Json.str "Cleanup"),
   ("actions", Json.arr
     [Json.obj [("type", Json.str "delete"), ("data", Json.str "user_account")]])]

/-- A task with the `actions` field omitted entirely. -/
def noActionsTask : AgentTask := [("name", Json.str "Idle")]

/-- Two concrete actions, and their two orderings, for the permutation
claim. -/
def permActA : Json := Json.obj [("type", Json.str "alpha")]

def permActB : Json := Json.obj [("type", Json.str "beta")]

-- ### Helper lemmas: folds and counts

/-- A fold adding `c` for each element satisfying `p` counts the matches. -/
theorem foldl_if_add (p : List Char → Bool) (c : Nat) :
    ∀ (l : List (List Char)) (acc : Nat),
      l.foldl (fun sc kw => if p kw then sc + c else sc) acc
        = acc + c * (l.filter p).length := by
  intro l
  induction l with
  | nil => intro acc; simp
  | cons kw l ih =>
    intro acc
    by_cases h : p kw
    · simp [List.foldl_cons, h, ih, List.filter_cons]
      ring
    · simp [List.foldl_cons, h, ih, List.filter_cons]

/-- The source's accumulated score equals the spec's closed-form score. -/
theorem riskScore_eq_spec (t : AgentTask) : riskScore t = spec_score t := by
  unfold riskScore spec_score keywordScore highMatches mediumMatches actionBonus
  simp only [foldl_if_add]
  split
  · ring_nf
  · split
    · ring_nf
    · ring_nf

/-- The source's tier equals the spec's threshold mapping of the spec score. -/
theorem evaluate_risk_eq_spec (t : AgentTask) : evaluate_risk t = spec_classify t := by
  unfold evaluate_risk spec_classify tierOf
  rw [riskScore_eq_spec]

-- ### Substring containment: bridge to `List.IsInfix` and splitting lemmas

/-- Deciding the prefix relation with `startsWithChars`. -/
theorem startsWithChars_iff :
    ∀ (kw s : List Char), startsWithChars kw s = true ↔ kw <+: s := by
  intro kw
  induction kw with
  | nil =>
    intro s
    cases s <;> simp [startsWithChars]
  | cons k ks ih =>
    intro s
    cases s with
    | nil => simp [startsWithChars]
    | cons c rest =>
      simp [startsWithChars, List.cons_prefix_cons, ih]

/-- Deciding the substring (infix) relation with `containsSub`: Python's
`kw in s`. -/
theorem containsSub_iff :
    ∀ (kw s : List Char), containsSub kw s = true ↔ kw <:+: s := by
  intro kw s
  induction s with
  | nil => simp [containsSub, List.isEmpty_iff]
  | cons c rest ih =>
    simp only [containsSub, Bool.or_eq_true, startsWithChars_iff, ih,
      List.infix_cons_iff]

/-- A keyword that does not contain `c` and occurs in `A ++ c :: B` as a
prefix already occurs as a prefix of `A`. -/
theorem prefix_drop_sep (c : Char) :
    ∀ (A kw B : List Char), c ∉ kw → kw <+: A ++ c :: B → kw <+: A := by
  intro A
  induction A with
  | nil =>
    intro kw B hc h
    cases kw with
    | nil => exact List.nil_prefix
    | cons k ks =>
      rw [List.nil_append, List.cons_prefix_cons] at h
      exact absurd (h.1 ▸ List.mem_cons_self k ks) hc
  | cons a A' ih =>
    intro kw B hc h
    cases kw with
    | nil => exact List.nil_prefix
    | cons k ks =>
      rw [List.cons_append, List.cons_prefix_cons] at h
      exact List.cons_prefix_cons.mpr
        ⟨h.1, ih ks B (fun hm => hc (List.mem_cons_of_mem _ hm)) h.2⟩

/-- Splitting at a separator character: a keyword free of `c` occurs in
`X ++ c :: Y` iff it occurs in `X` or in `Y`.  This is what confines keyword
occurrences to single serialized fields. -/
theorem sub_split (c : Char) (kw : List Char) (hc : c ∉ kw) :
    ∀ (X Y : List Char), kw <:+: X ++ c :: Y ↔ kw <:+: X ∨ kw <:+: Y := by
  intro X
  induction X with
  | nil =>
    intro Y
    rw [List.nil_append]
    constructor
    · intro h
      rcases List.infix_cons_iff.mp h with hp | hi
      · have : kw = [] := List.prefix_nil.mp (prefix_drop_sep c [] kw Y hc hp)
        exact Or.inl (this ▸ List.nil_infix)
      · exact Or.inr hi
    · rintro (h | h)
      · rw [List.infix_nil.mp h]; exact List.nil_infix
      · exact List.infix_cons_iff.mpr (Or.inr h)
  | cons x X' ih =>
    intro Y
    rw [List.cons_append]
    constructor
    · intro h
      rcases List.infix_cons_iff.mp h with hp | hi
      · have h2 : kw <+: x :: X' :=
          prefix_drop_sep c (x :: X') kw Y hc (by rw [List.cons_append]; exact hp)
        exact Or.inl h2.isInfix
      · rcases (ih Y).mp hi with h1 | h2
        · exact Or.inl (List.infix_cons_iff.mpr (Or.inr h1))
        · exact Or.inr h2
    · rintro (h | h)
      · rcases List.infix_cons_iff.mp h with hp | hi
        · exact List.infix_cons_iff.mpr (Or.inl (hp.trans (List.prefix_append _ _)))
        · exact List.infix_cons_iff.mpr
            (Or.inr ((ih Y).mpr (Or.inl hi)))
      · exact List.infix_cons_iff.mpr (Or.inr ((ih Y).mpr (Or.inr h)))

/-- A nonempty keyword free of `c` occurs in `c :: L` iff it occurs in `L`. -/
theorem sub_cons_sep (c : Char) (kw : List Char) (hc : c ∉ kw) (hne : kw ≠ []) :
    ∀ L : List Char, kw <:+: c :: L ↔ kw <:+: L := by
  intro L
  constructor
  · intro h
    rcases List.infix_cons_iff.mp h with hp | hi
    · cases kw with
      | nil => exact absurd rfl hne
      | cons k ks =>
        rw [List.cons_prefix_cons] at hp
        exact absurd (hp.1 ▸ List.mem_cons_self k ks) hc
    · exact hi
  · exact fun h => List.infix_cons_iff.mpr (Or.inr h)

/-- A nonempty keyword free of `c` occurs in `X ++ [c]` iff it occurs in
`X`. -/
theorem sub_concat_sep (c : Char) (kw : List Char) (hc : c ∉ kw) (hne : kw ≠ [])
    (X : List Char) : kw <:+: X ++ [c] ↔ kw <:+: X := by
  have := sub_split c kw hc X []
  simp only [List.infix_nil] at this
  rw [this]
  simp [hne]

-- ### Factoring the serialized blob into `", "`-separated parts

theorem dumpsArr_eq : ∀ l : List Json, dumpsArr l = joinSep (l.map dumps)
  | [] => rfl
  | [_] => rfl
  | v :: w :: vs => by
      simp only [dumpsArr, List.map, joinSep, dumpsArr_eq (w :: vs)]

theorem dumpsObj_eq : ∀ kvs : List (String × Json),
    dumpsObj kvs = joinSep (kvs.map entryStr)
  | [] => rfl
  | [(_, _)] => rfl
  | (k, v) :: kv :: kvs => by
      simp only [dumpsObj, List.map, joinSep, entryStr, dumpsObj_eq (kv :: kvs)]

theorem map_toLower_joinSep : ∀ ps : List (List Char),
    (joinSep ps).map Char.toLower = joinSep (ps.map (List.map Char.toLower))
  | [] => rfl
  | [_] => rfl
  | p :: q :: ps => by
      have hcomma : Char.toLower ',' = ',' := by decide
      have hspace : Char.toLower ' ' = ' ' := by decide
      simp only [joinSep, List.map, List.map_append, List.map_cons, hcomma,
        hspace, map_toLower_joinSep (q :: ps)]

/-- A keyword free of `", "` occurs in a joined list iff it occurs in one of
the parts. -/
theorem sub_joinSep (kw : List Char) (hne : kw ≠ []) (hc : ',' ∉ kw)
    (hs : ' ' ∉ kw) : ∀ ps : List (List Char),
      kw <:+: joinSep ps ↔ ∃ p ∈ ps, kw <:+: p
  | [] => by simp [joinSep, List.infix_nil, hne]
  | [p] => by simp [joinSep]
  | p :: q :: ps => by
      rw [joinSep, sub_split ',' kw hc p (' ' :: joinSep (q :: ps)),
        sub_cons_sep ' ' kw hs hne, sub_joinSep kw hne hc hs (q :: ps)]
      simp

/-- A clean keyword occurs in the blob of a task iff it occurs in the
lowercased serialization of one of the task's fields. -/
theorem sub_blob_obj (kw : List Char) (h : kwClean kw) (kvs : AgentTask) :
    kw <:+: taskBlob kvs ↔ ∃ e ∈ kvs, kw <:+: (entryStr e).map Char.toLower := by
  obtain ⟨hne, hcm, hsp, hob, hcb, _, _, _, _⟩ := h
  have hlb : Char.toLower '{' = '{' := by decide
  have hrb : Char.toLower '}' = '}' := by decide
  unfold taskBlob
  rw [dumps]
  simp only [List.map_cons, List.map_append, List.map_nil, hlb, hrb]
  rw [sub_cons_sep '{' kw hob hne, sub_concat_sep '}' kw hcb hne,
    dumpsObj_eq, map_toLower_joinSep, sub_joinSep kw hne hcm hsp]
  simp only [List.map_map, List.mem_map]
  constructor
  · rintro ⟨p, ⟨e, he, rfl⟩, hsub⟩
    exact ⟨e, he, hsub⟩
  · rintro ⟨e, he, hsub⟩
    exact ⟨(entryStr e).map Char.toLower, ⟨e, he, rfl⟩, hsub⟩

/-- A clean keyword occurs in the serialized `"actions": [...]` field iff it
occurs in the (fixed) serialized key or in the serialization of one of the
actions. -/
theorem sub_actions_entry (kw : List Char) (h : kwClean kw) (acts : List Json) :
    kw <:+: (entryStr ("actions", Json.arr acts)).map Char.toLower ↔
      (kw <:+: (escapeStr "actions".data).map Char.toLower ∨
        ∃ a ∈ acts, kw <:+: (dumps a).map Char.toLower) := by
  obtain ⟨hne, hcm, hsp, _, _, hlk, hrk, hqu, hco⟩ := h
  have h1 : Char.toLower '"' = '"' := by decide
  have h2 : Char.toLower ':' = ':' := by decide
  have h3 : Char.toLower ' ' = ' ' := by decide
  have h4 : Char.toLower '[' = '[' := by decide
  have h5 : Char.toLower ']' = ']' := by decide
  unfold entryStr
  simp only [dumps, List.map_cons, List.map_append, List.map_nil, h1, h2, h3,
    h4, h5]
  rw [sub_cons_sep '"' kw hqu hne, sub_split '"' kw hqu,
    sub_cons_sep ':' kw hco hne, sub_cons_sep ' ' kw hsp hne,
    sub_cons_sep '[' kw hlk hne, sub_concat_sep ']' kw hrk hne,
    dumpsArr_eq, map_toLower_joinSep, sub_joinSep kw hne hcm hsp]
  simp only [List.map_map, List.mem_map]
  constructor
  · rintro (hl | ⟨p, ⟨a, ha, rfl⟩, hsub⟩)
    · exact Or.inl hl
    · exact Or.inr ⟨a, ha, hsub⟩
  · rintro (hl | ⟨a, ha, hsub⟩)
    · exact Or.inl hl
    · exact Or.inr ⟨(dumps a).map Char.toLower, ⟨a, ha, rfl⟩, hsub⟩

-- ### Permutation invariance of classification (claim C10)

/-- Python's `dict.get` skips the bindings in front whose key differs. -/
theorem lookup_append_of_not_mem (k : String) :
    ∀ (pre rest : List (String × Json)), k ∉ pre.map Prod.fst →
      List.lookup k (pre ++ rest) = List.lookup k rest := by
  intro pre
  induction pre with
  | nil => simp
  | cons kv pre ih =>
    intro rest hk
    obtain ⟨k1, v1⟩ := kv
    simp only [List.map_cons, List.mem_cons] at hk
    push_neg at hk
    rw [List.cons_append, List.lookup_cons]
    simp only [beq_eq_false_iff_ne.mpr hk.1, ih rest hk.2]

/-- An existential over a list with one varying element, under an
equivalence at that element. -/
theorem exists_mem_middle_iff {α : Type} (P : α → Prop) (pre rest : List α)
    (m m' : α) (hm : P m ↔ P m') :
    (∃ e ∈ pre ++ m :: rest, P e) ↔ ∃ e ∈ pre ++ m' :: rest, P e := by
  simp only [List.mem_append, List.mem_cons]
  constructor
  · rintro ⟨e, he | rfl | he, pe⟩
    · exact ⟨e, Or.inl he, pe⟩
    · exact ⟨m', Or.inr (Or.inl rfl), hm.mp pe⟩
    · exact ⟨e, Or.inr (Or.inr he), pe⟩
  · rintro ⟨e, he | rfl | he, pe⟩
    · exact ⟨e, Or.inl he, pe⟩
    · exact ⟨m, Or.inr (Or.inl rfl), hm.mpr pe⟩
    · exact ⟨e, Or.inr (Or.inr he), pe⟩

/-- Keyword presence in the blob is unchanged when the actions array is
permuted: occurrences are confined to single serialized fields, and the
actions field's occurrences to single serialized actions. -/
theorem sub_blob_perm (kw : List Char) (h : kwClean kw)
    (pre rest : AgentTask) (acts acts' : List Json) (hp : acts.Perm acts') :
    (kw <:+: taskBlob (pre ++ ("actions", Json.arr acts) :: rest) ↔
      kw <:+: taskBlob (pre ++ ("actions", Json.arr acts') :: rest)) := by
  rw [sub_blob_obj kw h, sub_blob_obj kw h]
  apply exists_mem_middle_iff
  rw [sub_actions_entry kw h, sub_actions_entry kw h]
  exact or_congr Iff.rfl
    ⟨fun ⟨a, ha, s⟩ => ⟨a, hp.mem_iff.mp ha, s⟩,
     fun ⟨a, ha, s⟩ => ⟨a, hp.mem_iff.mpr ha, s⟩⟩

/-- Every keyword `evaluate_risk` scans for is clean: a nonempty lowercase
word over letters and `_`. -/
theorem keywords_clean :
    ∀ kw ∈ high_risk_keywords ++ medium_risk_keywords, kwClean kw := by
  decide

/-- Classification is invariant under permutation of the actions array. -/
theorem evaluate_risk_perm_inv (pre rest : AgentTask) (acts acts' : List Json)
    (hk : "actions" ∉ pre.map Prod.fst) (hp : acts.Perm acts') :
    evaluate_risk (pre ++ ("actions", Json.arr acts) :: rest)
      = evaluate_risk (pre ++ ("actions", Json.arr acts') :: rest) := by
  have hblob : ∀ kw ∈ high_risk_keywords ++ medium_risk_keywords,
      containsSub kw (taskBlob (pre ++ ("actions", Json.arr acts) :: rest))
        = containsSub kw (taskBlob (pre ++ ("actions", Json.arr acts') :: rest)) := by
    intro kw hkw
    rw [Bool.eq_iff_iff, containsSub_iff, containsSub_iff]
    exact sub_blob_perm kw (keywords_clean kw hkw) pre rest acts acts' hp
  have hga : getActions (pre ++ ("actions", Json.arr acts) :: rest) = acts := by
    unfold getActions
    rw [lookup_append_of_not_mem "actions" pre _ hk, List.lookup_cons]
    simp
  have hga' : getActions (pre ++ ("actions", Json.arr acts') :: rest) = acts' := by
    unfold getActions
    rw [lookup_append_of_not_mem "actions" pre _ hk, List.lookup_cons]
    simp
  rw [evaluate_risk_eq_spec, evaluate_risk_eq_spec]
  unfold spec_classify spec_score keywordScore highMatches mediumMatches
  rw [hga, hga', hp.length_eq]
  rw [List.filter_congr (fun kw hkw =>
    hblob kw (List.mem_append.mpr (Or.inl hkw)))]
  rw [List.filter_congr (fun kw hkw =>
    hblob kw (List.mem_append.mpr (Or.inr hkw)))]

-- ### Slot-filling semantics of the gather join

/-- Filling slots never changes how many there are. -/
theorem foldl_set_length (f : Nat → ActionResult) :
    ∀ (σ : List Nat) (init : List (Option ActionResult)),
      (σ.foldl (fun s i => s.set i (some (f i))) init).length = init.length := by
  intro σ
  induction σ with
  | nil => intro init; rfl
  | cons i σ ih => intro init; rw [List.foldl_cons, ih, List.length_set]

/-- After the completion sequence `σ` has run, slot `j` holds coroutine
`j`'s result precisely when `j` completed, no matter where in `σ` it did. -/
theorem foldl_set_getElem? (f : Nat → ActionResult) :
    ∀ (σ : List Nat) (init : List (Option ActionResult)) (j : Nat),
      (σ.foldl (fun s i => s.set i (some (f i))) init)[j]? =
        if j ∈ σ ∧ j < init.length then some (some (f j)) else init[j]? := by
  intro σ
  induction σ with
  | nil => intro init j; simp
  | cons i σ ih =>
    intro init j
    rw [List.foldl_cons, ih, List.length_set]
    by_cases hσ : j ∈ σ
    · by_cases hl : j < init.length
      · simp [hσ, hl, List.mem_cons]
      · have h1 : (init.set i (some (f i)))[j]? = none :=
          List.getElem?_eq_none (by rw [List.length_set]; omega)
        have h2 : init[j]? = none := List.getElem?_eq_none (by omega)
        simp [hσ, hl, h1, h2]
    · by_cases hij : i = j
      · subst hij
        rw [if_neg (by tauto), List.getElem?_set, if_pos rfl]
        by_cases hl : i < init.length
        · simp [hl, List.mem_cons]
        · simp [hl, List.mem_cons, List.getElem?_eq_none (Nat.le_of_not_lt hl)]
      · rw [if_neg (by tauto), List.getElem?_set, if_neg hij,
          if_neg (by rw [List.mem_cons]; tauto)]

-- ### Error propagation through the gather join

/-- If any coroutine raised, the gather call raises: no result list comes
back. -/
theorem gatherExcept_toOption_none :
    ∀ l : List (Except String ActionResult),
      (∃ e, Except.error e ∈ l) → (gatherExcept l).toOption = none := by
  intro l
  induction l with
  | nil => rintro ⟨e, he⟩; cases he
  | cons x rest ih =>
    rintro ⟨e, he⟩
    cases x with
    | error e0 => rfl
    | ok r =>
      have hrest : ∃ e, Except.error e ∈ rest := by
        rcases List.mem_cons.mp he with h | h
        · cases h
        · exact ⟨e, h⟩
      have hnone := ih hrest
      cases hg : gatherExcept rest with
      | error e1 => simp [gatherExcept, hg, Except.map, Except.toOption]
      | ok rs => rw [hg] at hnone; simp [Except.toOption] at hnone

/-- With a capability that never fails, the gather join returns every result
in order. -/
theorem gatherExcept_all_ok :
    ∀ acts : List Json,
      executeActionsWith defaultCap acts
        = Except.ok (acts.map executeSingleAction) := by
  intro acts
  induction acts with
  | nil => rfl
  | cons a rest ih =>
    unfold executeActionsWith at ih ⊢
    simp [List.map_cons, gatherExcept, defaultCap, ih, Except.map]

-- ### Makespan of the fan-out

/-- Every nonempty batch's concurrent makespan is one delay. -/
theorem concurrentMakespan_actionDelays :
    ∀ acts : List Json, acts ≠ [] →
      concurrentMakespan (actionDelays acts) = sleepMs
  | [], h => absurd rfl h
  | [_], _ => rfl
  | _ :: b :: rest, _ => by
      have ih := concurrentMakespan_actionDelays (b :: rest) (by simp)
      show max sleepMs (concurrentMakespan (actionDelays (b :: rest))) = sleepMs
      rw [ih, Nat.max_self]

/-- A sequential loop would take the delay once per action. -/
theorem sequentialMakespan_actionDelays :
    ∀ acts : List Json,
      sequentialMakespan (actionDelays acts) = acts.length * sleepMs := by
  intro acts
  induction acts with
  | nil => rfl
  | cons a rest ih =>
    simp only [actionDelays, List.map_cons, sequentialMakespan, List.sum_cons,
      List.length_cons]
    rw [show (rest.map fun _ => sleepMs).sum
        = sequentialMakespan (actionDelays rest) from rfl, ih]
    ring

-- ### The claims

/-- C1: for every task, `classify` computes an integer score starting at 0,
adding 10 once per high-risk keyword (`delete`, `payment`, `charge`,
`refund`, `cancel_subscription`) occurring as a substring of the
case-insensitive serialized task, adding 3 once per medium-risk keyword
(`update`, `modify`, `send_email`, `post`) present, adding 5 when the number
of actions exceeds 5 and otherwise 2 when it exceeds 3, and returns `red`
when the score is at least 10, else `yellow` at least 5, else `green` —
stated as equality with the closed-form `spec_classify` built from exactly
those clauses. -/
theorem claim_c1_scoring_algorithm (t : AgentTask) :
    evaluate_risk t = spec_classify t :=
  evaluate_risk_eq_spec t

/-- C2: for every ordered action sequence and every completion order of the
concurrently dispatched runs, `execute` returns exactly one result per
action, and slot `i` carries `actions[i]`'s result, whose `action` field is
`actions[i].type` (with `unknown` substituted when the field is absent). -/
theorem claim_c2_order_preservation (acts : List Json) (σ : List Nat)
    (h : σ.Perm (List.range acts.length)) :
    (executeSched acts σ).length = acts.length ∧
      ∀ i, i < acts.length →
        (executeSched acts σ).getD i none
            = some (executeSingleAction (acts.getD i (Json.obj []))) ∧
          ((executeSched acts σ).getD i none).map ActionResult.action
            = some (getType (acts.getD i (Json.obj []))) := by
  have hlen : (executeSched acts σ).length = acts.length := by
    unfold executeSched gatherSched
    rw [foldl_set_length, List.length_replicate]
  refine ⟨hlen, ?_⟩
  intro i hi
  have hget : (executeSched acts σ)[i]?
      = some (some (executeSingleAction (acts.getD i (Json.obj [])))) := by
    unfold executeSched gatherSched
    rw [foldl_set_getElem?,
      if_pos ⟨h.mem_iff.mpr (List.mem_range.mpr hi), by simp [hi]⟩]
  constructor
  · rw [List.getD_eq_getElem?_getD, hget]
    rfl
  · rw [List.getD_eq_getElem?_getD, hget]
    rfl

/-- C2 witness: the two-action batch under the reversed completion order. -/
theorem claim_c2_order_preservation_witness :
    (executeSched demoActions [1, 0]).length = demoActions.length ∧
      ∀ i, i < demoActions.length →
        (executeSched demoActions [1, 0]).getD i none
            = some (executeSingleAction (demoActions.getD i (Json.obj []))) ∧
          ((executeSched demoActions [1, 0]).getD i none).map ActionResult.action
            = some (getType (demoActions.getD i (Json.obj []))) :=
  claim_c2_order_preservation demoActions [1, 0] (by decide)

/-- C3 counterexample: with a capability configured so that exactly the
second of two actions reports an error, `execute` does not return a
full-length result sequence with one failure slot — `asyncio.gather`
(without `return_exceptions=True`) propagates the exception and no result
sequence is produced at all. -/
theorem claim_c3_counterexample :
    capFail (Json.obj [("type", Json.str "fine")])
        = Except.ok (executeSingleAction (Json.obj [("type", Json.str "fine")])) ∧
      capFail (Json.obj [("type", Json.str "explode")]) = Except.error "boom" ∧
      executeActionsWith capFail demoActions = Except.error "boom" ∧
      (executeActionsWith capFail demoActions).toOption = none :=
  ⟨rfl, rfl, rfl, rfl⟩

/-- C3 amended: if any action's execution capability reports an error, the
batch join reports that failure as a whole — no result sequence is returned,
so the per-slot isolation the claim describes does not hold; only with the
built-in capability, which never reports an error, does `execute` return the
full-length all-success sequence. -/
theorem claim_c3_error_escalates :
    (∀ (cap : Json → Except String ActionResult) (acts : List Json)
        (a : Json) (e : String), a ∈ acts → cap a = Except.error e →
          (executeActionsWith cap acts).toOption = none) ∧
      ∀ acts : List Json,
        executeActionsWith defaultCap acts
          = Except.ok (acts.map executeSingleAction) := by
  refine ⟨?_, gatherExcept_all_ok⟩
  intro cap acts a e ha he
  apply gatherExcept_toOption_none
  exact ⟨e, he ▸ List.mem_map_of_mem cap ha⟩

/-- C3 amended witness: the failing two-action batch yields no result list;
the default capability yields the all-success list. -/
theorem claim_c3_error_escalates_witness :
    (executeActionsWith capFail demoActions).toOption = none ∧
      executeActionsWith defaultCap demoActions
        = Except.ok (demoActions.map executeSingleAction) :=
  ⟨claim_c3_error_escalates.1 capFail demoActions
      (Json.obj [("type", Json.str "explode")]) "boom"
      (List.Mem.tail _ (List.Mem.head _)) rfl,
    claim_c3_error_escalates.2 demoActions⟩

/-- C4: `process` classifies first and then executes — visible in the log,
where the determined risk level is recorded before the execution event —
with the classification never gating or altering execution (the results are
`execute_actions` of the submitted actions alone); the report counts the
actions submitted, not the successes, and its status is `completed`
unconditionally. -/
theorem claim_c4_coordinator_sequencing (t : AgentTask) :
    (process_task t).status = "completed" ∧
      (process_task t).actions_executed = (getActions t).length ∧
      (process_task t).risk_level = evaluate_risk t ∧
      (process_task t).results = execute_actions (getActions t) ∧
      (process_taskSt [] t).2 =
        [LogEvent.processingTask
          ((List.lookup "name" t).getD (Json.str "Unnamed Task")),
         LogEvent.evaluatingRisk (List.lookup "name" t),
         LogEvent.riskDetermined (evaluate_risk t),
         LogEvent.executingActions (getActions t).length] := by
  refine ⟨rfl, rfl, rfl, rfl, ?_⟩
  simp [process_taskSt, evaluate_riskSt, execute_actionsSt]

/-- C5: every task whose serialized form contains a high-risk keyword
classifies `red`, whatever else the task holds. -/
theorem claim_c5_high_keyword_red (t : AgentTask)
    (h : ∃ kw ∈ high_risk_keywords, containsSub kw (taskBlob t) = true) :
    evaluate_risk t = "red" := by
  rw [evaluate_risk_eq_spec]
  unfold spec_classify tierOf
  have h10 : 10 ≤ spec_score t := by
    unfold spec_score keywordScore highMatches
    obtain ⟨kw, hkw, hc⟩ := h
    have hmem : kw ∈ high_risk_keywords.filter
        (fun kw => containsSub kw (taskBlob t)) :=
      List.mem_filter.mpr ⟨hkw, hc⟩
    have hlen : 0 < (high_risk_keywords.filter
        (fun kw => containsSub kw (taskBlob t))).length :=
      List.length_pos.mpr (List.ne_nil_of_mem hmem)
    omega
  rw [if_pos h10]

/-- C5 witness: the single-action `delete` task is red. -/
theorem claim_c5_high_keyword_red_witness : evaluate_risk deleteTask = "red" :=
  claim_c5_high_keyword_red deleteTask ⟨"delete".data, by decide, by decide⟩

/-- C6 counterexample: a task with four actions (so more than 3 and at most
5), no high-risk keyword and at least one medium-risk keyword — here four of
them — classifies `red`, not `yellow`: the claim's "at least one medium-risk
keyword" does not bound the score below 10. -/
theorem claim_c6_counterexample :
    (∀ kw ∈ high_risk_keywords,
        containsSub kw (taskBlob fourMediumTask) = false) ∧
      (∃ kw ∈ medium_risk_keywords,
        containsSub kw (taskBlob fourMediumTask) = true) ∧
      3 < (getActions fourMediumTask).length ∧
      (getActions fourMediumTask).length ≤ 5 ∧
      evaluate_risk fourMediumTask = "red" ∧
      evaluate_risk fourMediumTask ≠ "yellow" := by
  decide

/-- C6 amended: with no high-risk keyword, at least one but at most two
medium-risk keyword matches (so the keyword score stays below 10), and more
than 3 but at most 5 actions, classification is `yellow`; and at the
boundary the repository's `Standard Task` fixture — three actions, one
medium keyword — scores 3 and classifies `green`, since the action-count
bonus requires the count to exceed 3. -/
theorem claim_c6_medium_yellow_boundary :
    (∀ t : AgentTask,
        highMatches t = 0 → 1 ≤ mediumMatches t → mediumMatches t ≤ 2 →
        3 < (getActions t).length → (getActions t).length ≤ 5 →
        evaluate_risk t = "yellow") ∧
      evaluate_risk standardTask = "green" := by
  constructor
  · intro t h0 h1 h2 h3 h4
    rw [evaluate_risk_eq_spec]
    have hb : actionBonus (getActions t).length = 2 := by
      unfold actionBonus
      rw [if_neg (by omega), if_pos h3]
    have hs : spec_score t = 3 * mediumMatches t + 2 := by
      unfold spec_score keywordScore
      rw [h0, hb]
      ring
    unfold spec_classify tierOf
    rw [hs, if_neg (by omega), if_pos (by omega)]
  · decide

/-- C6 amended witness: a four-action task with exactly one medium keyword
is yellow, and the `Standard Task` fixture is green. -/
theorem claim_c6_medium_yellow_boundary_witness :
    evaluate_risk oneMediumTask = "yellow" ∧
      evaluate_risk standardTask = "green" :=
  ⟨claim_c6_medium_yellow_boundary.1 oneMediumTask (by decide) (by decide)
      (by decide) (by decide) (by decide),
    claim_c6_medium_yellow_boundary.2⟩

/-- C7: the executor returns the empty result sequence for the empty action
list, and for a task with the `actions` field omitted, `process` reports
zero actions executed, no results, and a risk level computed from the
remaining fields alone — the threshold mapping of the keyword score, with no
action-count contribution. -/
theorem claim_c7_empty_actions :
    execute_actions [] = [] ∧
      ∀ t : AgentTask, List.lookup "actions" t = none →
        (process_task t).actions_executed = 0 ∧
          (process_task t).results = [] ∧
          (process_task t).risk_level = tierOf (keywordScore t) := by
  refine ⟨rfl, ?_⟩
  intro t ht
  have hga : getActions t = [] := by
    unfold getActions
    rw [ht]
  have hrisk : (process_task t).risk_level = evaluate_risk t := rfl
  refine ⟨?_, ?_, ?_⟩
  · show (getActions t).length = 0
    rw [hga]
    rfl
  · show execute_actions (getActions t) = []
    rw [hga]
    rfl
  · rw [hrisk, evaluate_risk_eq_spec]
    unfold spec_classify spec_score
    rw [hga]
    rfl
/-- C7 witness: the fixture with no `actions` field. -/
theorem claim_c7_empty_actions_witness :
    (process_task noActionsTask).actions_executed = 0 ∧
      (process_task noActionsTask).results = [] ∧
      (process_task noActionsTask).risk_level
        = tierOf (keywordScore noActionsTask) :=
  claim_c7_empty_actions.2 noActionsTask rfl

/-- C8: classification is deterministic, total and pure — the tier is a
function of the task alone (independent of the logger state, its only
effect being one appended log event), classifying the same task twice
yields the same tier, and for every task the computation yields one of the
three tiers. -/
theorem claim_c8_classify_pure (log log' : List LogEvent) (t : AgentTask) :
    (evaluate_riskSt log t).1 = (evaluate_riskSt log' t).1 ∧
      (evaluate_riskSt log t).2
        = log ++ [LogEvent.evaluatingRisk (List.lookup "name" t)] ∧
      (evaluate_riskSt ((evaluate_riskSt log t).2) t).1
        = (evaluate_riskSt log t).1 ∧
      (evaluate_risk t = "green" ∨ evaluate_risk t = "yellow" ∨
        evaluate_risk t = "red") := by
  refine ⟨rfl, rfl, rfl, ?_⟩
  unfold evaluate_risk
  by_cases h1 : riskScore t ≥ 10
  · simp [h1]
  · by_cases h2 : riskScore t ≥ 5 <;> simp [h1, h2]

/-- C9: all actions are dispatched concurrently with a full fan-in join, so
in the timed model of `asyncio.sleep`/`gather` a nonempty batch's makespan
is one per-action delay — no farther from the single delay than from the
`n`-fold delay a sequential loop would take, and strictly closer as soon as
the batch has two actions. -/
theorem claim_c9_concurrent_dispatch (acts : List Json) (h : acts ≠ []) :
    concurrentMakespan (actionDelays acts) = sleepMs ∧
      sequentialMakespan (actionDelays acts) = acts.length * sleepMs ∧
      Nat.dist (concurrentMakespan (actionDelays acts)) sleepMs
        ≤ Nat.dist (concurrentMakespan (actionDelays acts))
            (acts.length * sleepMs) ∧
      (2 ≤ acts.length →
        Nat.dist (concurrentMakespan (actionDelays acts)) sleepMs
          < Nat.dist (concurrentMakespan (actionDelays acts))
              (acts.length * sleepMs)) := by
  have hc := concurrentMakespan_actionDelays acts h
  have hs := sequentialMakespan_actionDelays acts
  refine ⟨hc, hs, ?_, ?_⟩
  · rw [hc, Nat.dist_self]
    exact Nat.zero_le _
  · intro h2
    rw [hc, Nat.dist_self]
    have hlt : sleepMs < acts.length * sleepMs := by
      have := Nat.mul_le_mul_right sleepMs h2
      unfold sleepMs at *
      omega
    simp only [Nat.dist]
    omega

/-- C9 witness: the two-action batch. -/
theorem claim_c9_concurrent_dispatch_witness :
    concurrentMakespan (actionDelays demoActions) = sleepMs ∧
      sequentialMakespan (actionDelays demoActions)
        = demoActions.length * sleepMs ∧
      Nat.dist (concurrentMakespan (actionDelays demoActions)) sleepMs
        ≤ Nat.dist (concurrentMakespan (actionDelays demoActions))
            (demoActions.length * sleepMs) ∧
      (2 ≤ demoActions.length →
        Nat.dist (concurrentMakespan (actionDelays demoActions)) sleepMs
          < Nat.dist (concurrentMakespan (actionDelays demoActions))
              (demoActions.length * sleepMs)) :=
  claim_c9_concurrent_dispatch demoActions (List.cons_ne_nil _ _)

/-- C10: permuting a task's actions array changes neither keyword presence
in the serialized blob nor the action count, so the same tier comes back. -/
theorem claim_c10_perm_invariant (pre rest : AgentTask) (acts acts' : List Json)
    (hk : "actions" ∉ pre.map Prod.fst) (hp : acts.Perm acts') :
    evaluate_risk (pre ++ ("actions", Json.arr acts) :: rest)
      = evaluate_risk (pre ++ ("actions", Json.arr acts') :: rest) :=
  evaluate_risk_perm_inv pre rest acts acts' hk hp

/-- C10 witness: swapping two concrete actions. -/
theorem claim_c10_perm_invariant_witness :
    evaluate_risk
        [("name", Json.str "Swap"), ("actions", Json.arr [permActA, permActB])]
      = evaluate_risk
        [("name", Json.str "Swap"), ("actions", Json.arr [permActB, permActA])] :=
  claim_c10_perm_invariant [("name", Json.str "Swap")] [] [permActA, permActB]
    [permActB, permActA] (by decide) (List.Perm.swap permActB permActA [])
